import Mathlib

/-!
Verification development for the GitHub MCP server (src/github/index.ts).

The TypeScript source is shallowly embedded in Lean.  Every remote HTTP call
made by the server is represented by a request value (`Req`) together with an
oracle (`GitHubEnv`) that fixes, for each possible request, the response the
remote end would give during the run under consideration.  Each embedded
operation returns the value the TypeScript function would return (errors are
the thrown `Error` messages, as `Except String`) paired with the ordered list
of remote requests the function issued.

Node specific primitives (`Buffer` base64 and UTF-8 conversion, JavaScript
string methods) are modelled explicitly below; each model carries a comment
stating which primitive it stands for.
-/

/-- Truthiness of a JavaScript `string | undefined` value: `undefined` and the
empty string are falsy, every other string is truthy. -/
def strTruthy : Option String → Bool
  | none => false
  | some s => s ≠ ""

/-- Model of JavaScript `String.prototype.toLowerCase`, faithful on the ASCII
range (the only case-mapping `Char.toLower` performs). -/
def jsToLower (s : String) : String :=
  String.mk (s.data.map Char.toLower)

/-- Model of JavaScript `split(sep)` with a single-character separator, at
the character-list level: consecutive separators yield empty pieces and the
empty input yields one empty piece, exactly as in JavaScript. -/
def splitCharList (sep : Char) : List Char → List (List Char)
  | [] => [[]]
  | c :: cs =>
    if c = sep then [] :: splitCharList sep cs
    else
      match splitCharList sep cs with
      | [] => [[c]]
      | t :: ts => (c :: t) :: ts

/-- Model of JavaScript `s.split(sep)` for a one-character separator. -/
def jsSplitChar (sep : Char) (s : String) : List String :=
  (splitCharList sep s.data).map String.mk

/-- Model of JavaScript `s.split(" ")`. -/
def jsSplitSpace (s : String) : List String :=
  jsSplitChar ' ' s

/-- Model of JavaScript `s.includes(t)` (substring containment). -/
def jsIncludes (s t : String) : Bool :=
  decide (t.data <:+: s.data)

/-- Model of JavaScript `s.startsWith(pre)`. -/
def jsStartsWith (s pre : String) : Bool :=
  pre.data.isPrefixOf s.data

theorem splitCharList_no_sep (sep : Char) (l : List Char) :
    ∀ p ∈ splitCharList sep l, sep ∉ p := by
  induction l with
  | nil =>
    intro p hp
    simp [splitCharList] at hp
    simp [hp]
  | cons c cs ih =>
    intro p hp
    by_cases hc : c = sep
    · simp [splitCharList, hc] at hp
      rcases hp with hp | hp
      · simp [hp]
      · exact ih p hp
    · simp only [splitCharList, if_neg hc] at hp
      rcases hsp : splitCharList sep cs with _ | ⟨t, ts⟩
      · rw [hsp] at hp
        simp at hp
        simp [hp]
        exact fun hh => hc hh.symm
      · rw [hsp] at hp
        simp at hp
        rcases hp with hp | hp
        · subst hp
          intro hmem
          rcases List.mem_cons.mp hmem with h | h
          · exact hc h.symm
          · exact ih t (by rw [hsp]; exact List.mem_cons_self t ts) h
        · exact ih p (by rw [hsp]; exact List.mem_cons_of_mem t hp)

theorem jsSplitSpace_no_space (s : String) :
    ∀ p ∈ jsSplitSpace s, ' ' ∉ p.data := by
  intro p hp
  rcases List.mem_map.mp hp with ⟨l, hl, rfl⟩
  exact splitCharList_no_sep ' ' s.data l hl

/-! ## Base64 (model of Node `Buffer` conversions)

`Buffer.from(content).toString("base64")` encodes the UTF-8 bytes of a string
into base64 with `=` padding; `Buffer.from(s, "base64").toString("utf8")`
inverts it.  Bytes are `Nat`s below 256. -/

/-- The standard base64 alphabet, in index order. -/
def b64Alphabet : List Char :=
  ['A', 'B', 'C', 'D', 'E', 'F', 'G', 'H', 'I', 'J', 'K', 'L', 'M',
   'N', 'O', 'P', 'Q', 'R', 'S', 'T', 'U', 'V', 'W', 'X', 'Y', 'Z',
   'a', 'b', 'c', 'd', 'e', 'f', 'g', 'h', 'i', 'j', 'k', 'l', 'm',
   'n', 'o', 'p', 'q', 'r', 's', 't', 'u', 'v', 'w', 'x', 'y', 'z',
   '0', '1', '2', '3', '4', '5', '6', '7', '8', '9', '+', '/']

/-- Character for a sextet value. -/
def alphChar (n : Nat) : Char :=
  b64Alphabet.getD n 'A'

/-- Sextet value of a character; `none` for characters outside the alphabet
(in particular the padding character). -/
def sextetOf (c : Char) : Option Nat :=
  let i := b64Alphabet.indexOf c
  if i < 64 then some i else none

theorem sextetOf_alphChar : ∀ n, n < 64 → sextetOf (alphChar n) = some n := by
  decide

theorem sextetOf_pad : sextetOf '=' = none := by
  decide

/-- Base64 encoding of a byte list, with `=` padding, as produced by Node
`Buffer.prototype.toString("base64")`. -/
def b64EncodeBytes : List Nat → List Char
  | a :: b :: c :: rest =>
    alphChar (a / 4) :: alphChar ((a % 4) * 16 + b / 16) ::
      alphChar ((b % 16) * 4 + c / 64) :: alphChar (c % 64) :: b64EncodeBytes rest
  | [a, b] => [alphChar (a / 4), alphChar ((a % 4) * 16 + b / 16), alphChar ((b % 16) * 4), '=']
  | [a] => [alphChar (a / 4), alphChar ((a % 4) * 16), '=', '=']
  | [] => []

/-- Reassemble bytes from a list of sextet values; a trailing group of two or
three sextets yields one or two bytes, as in Node base64 decoding. -/
def b64Groups : List Nat → List Nat
  | s1 :: s2 :: s3 :: s4 :: rest =>
    (s1 * 4 + s2 / 16) :: ((s2 % 16) * 16 + s3 / 4) :: ((s3 % 4) * 64 + s4) :: b64Groups rest
  | [s1, s2, s3] => [s1 * 4 + s2 / 16, (s2 % 16) * 16 + s3 / 4]
  | [s1, s2] => [s1 * 4 + s2 / 16]
  | _ => []

/-- Model of Node `Buffer.from(s, "base64")`: characters outside the alphabet
(padding included) are ignored, the sextets are then regrouped into bytes. -/
def b64DecodeChars (cs : List Char) : List Nat :=
  b64Groups (cs.filterMap sextetOf)

theorem b64_roundtrip (l : List Nat) (h : ∀ x ∈ l, x < 256) :
    b64DecodeChars (b64EncodeBytes l) = l := by
  unfold b64DecodeChars
  induction l using b64EncodeBytes.induct with
  | case1 a b c rest ih =>
    have ha : a < 256 := h a (by simp)
    have hb : b < 256 := h b (by simp)
    have hc : c < 256 := h c (by simp)
    have h1 : sextetOf (alphChar (a / 4)) = some (a / 4) :=
      sextetOf_alphChar _ (by omega)
    have h2 : sextetOf (alphChar ((a % 4) * 16 + b / 16)) = some ((a % 4) * 16 + b / 16) :=
      sextetOf_alphChar _ (by omega)
    have h3 : sextetOf (alphChar ((b % 16) * 4 + c / 64)) = some ((b % 16) * 4 + c / 64) :=
      sextetOf_alphChar _ (by omega)
    have h4 : sextetOf (alphChar (c % 64)) = some (c % 64) :=
      sextetOf_alphChar _ (by omega)
    have ih' := ih (fun x hx => h x (by simp [hx]))
    simp only [b64EncodeBytes, List.filterMap_cons, h1, h2, h3, h4]
    simp only [b64Groups]
    rw [ih']
    congr 1
    · omega
    · congr 1
      · omega
      · congr 1
        omega
  | case2 a b =>
    have ha : a < 256 := h a (by simp)
    have hb : b < 256 := h b (by simp)
    have h1 : sextetOf (alphChar (a / 4)) = some (a / 4) :=
      sextetOf_alphChar _ (by omega)
    have h2 : sextetOf (alphChar ((a % 4) * 16 + b / 16)) = some ((a % 4) * 16 + b / 16) :=
      sextetOf_alphChar _ (by omega)
    have h3 : sextetOf (alphChar ((b % 16) * 4)) = some ((b % 16) * 4) :=
      sextetOf_alphChar _ (by omega)
    simp only [b64EncodeBytes, List.filterMap_cons, h1, h2, h3, sextetOf_pad]
    simp only [List.filterMap_nil, b64Groups]
    congr 1
    · omega
    · congr 1
      omega
  | case3 a =>
    have ha : a < 256 := h a (by simp)
    have h1 : sextetOf (alphChar (a / 4)) = some (a / 4) :=
      sextetOf_alphChar _ (by omega)
    have h2 : sextetOf (alphChar ((a % 4) * 16)) = some ((a % 4) * 16) :=
      sextetOf_alphChar _ (by omega)
    simp only [b64EncodeBytes, List.filterMap_cons, h1, h2, sextetOf_pad]
    simp only [List.filterMap_nil, b64Groups]
    congr 1
    omega
  | case4 => rfl

/-! ## UTF-8 (model of Node `Buffer` string conversion) -/

/-- UTF-8 encoding of one Unicode scalar value. -/
def utf8EncodeChar (n : Nat) : List Nat :=
  if n < 0x80 then [n]
  else if n < 0x800 then [0xC0 + n / 64, 0x80 + n % 64]
  else if n < 0x10000 then [0xE0 + n / 4096, 0x80 + n / 64 % 64, 0x80 + n % 64]
  else [0xF0 + n / 262144, 0x80 + n / 4096 % 64, 0x80 + n / 64 % 64, 0x80 + n % 64]

/-- UTF-8 encoding of a list of scalar values. -/
def utf8EncodeCodes : List Nat → List Nat
  | [] => []
  | c :: t => utf8EncodeChar c ++ utf8EncodeCodes t

/-- Continuation-byte test. -/
def isCont (b : Nat) : Bool :=
  0x80 ≤ b && b < 0xC0

/-- Decode one UTF-8 sequence whose leading byte is `b1` and whose following
bytes begin `rest`; returns the scalar value and the unconsumed remainder.
Rejects stray continuation bytes, truncated sequences, overlong encodings,
surrogates and values above 0x10FFFF. -/
def utf8DecodeTail (b1 : Nat) (rest : List Nat) : Option (Nat × List Nat) :=
  if b1 < 0x80 then some (b1, rest)
  else if b1 < 0xC0 then none
  else if b1 < 0xE0 then
    match rest with
    | b2 :: rest2 =>
      if isCont b2 then
        let n := (b1 - 0xC0) * 64 + (b2 - 0x80)
        if 0x80 ≤ n then some (n, rest2) else none
      else none
    | [] => none
  else if b1 < 0xF0 then
    match rest with
    | b2 :: b3 :: rest3 =>
      if isCont b2 && isCont b3 then
        let n := (b1 - 0xE0) * 4096 + (b2 - 0x80) * 64 + (b3 - 0x80)
        if 0x800 ≤ n ∧ (n < 0xD800 ∨ 0xE000 ≤ n) then some (n, rest3) else none
      else none
    | _ => none
  else
    match rest with
    | b2 :: b3 :: b4 :: rest4 =>
      if isCont b2 && isCont b3 && isCont b4 then
        let n := (b1 - 0xF0) * 262144 + (b2 - 0x80) * 4096 + (b3 - 0x80) * 64 + (b4 - 0x80)
        if 0x10000 ≤ n ∧ n < 0x110000 then some (n, rest4) else none
      else none
    | _ => none

/-- Fuel-driven UTF-8 decoding loop; one unit of fuel is spent per decoded
character, so fuel equal to the byte count always suffices. -/
def utf8DecodeLoop : Nat → List Nat → Option (List Nat)
  | _, [] => some []
  | 0, _ :: _ => none
  | fuel + 1, b :: bs =>
    match utf8DecodeTail b bs with
    | some (n, rest) => (utf8DecodeLoop fuel rest).map (fun cs => n :: cs)
    | none => none

/-- Strict UTF-8 decoder on byte lists. -/
def utf8DecodeCodes (bs : List Nat) : Option (List Nat) :=
  utf8DecodeLoop bs.length bs

theorem utf8DecodeTail_encodeChar (n : Nat) (h : Nat.isValidChar n) (rest : List Nat) :
    ∃ b bs, utf8EncodeChar n = b :: bs ∧ utf8DecodeTail b (bs ++ rest) = some (n, rest) := by
  have hlt : n < 0x110000 := by
    rcases h with h | h
    · omega
    · omega
  rcases Nat.lt_or_ge n 0x80 with h1 | h1
  · refine ⟨n, [], ?_, ?_⟩
    · simp only [utf8EncodeChar]
      rw [if_pos h1]
    · simp only [utf8DecodeTail, List.nil_append]
      rw [if_pos h1]
  · rcases Nat.lt_or_ge n 0x800 with h2 | h2
    · refine ⟨0xC0 + n / 64, [0x80 + n % 64], ?_, ?_⟩
      · simp only [utf8EncodeChar]
        rw [if_neg (by omega), if_pos h2]
      · have c1 : ¬ (0xC0 + n / 64 < 0x80) := by omega
        have c2 : ¬ (0xC0 + n / 64 < 0xC0) := by omega
        have c3 : 0xC0 + n / 64 < 0xE0 := by omega
        have c4 : isCont (0x80 + n % 64) = true := by
          simp [isCont]
          omega
        simp only [utf8DecodeTail, List.cons_append, List.nil_append]
        rw [if_neg c1, if_neg c2, if_pos c3]
        simp only [c4, if_true, ite_true]
        have harith : (0xC0 + n / 64 - 0xC0) * 64 + (0x80 + n % 64 - 0x80) = n := by omega
        rw [harith, if_pos (by omega : 0x80 ≤ n)]
    · rcases Nat.lt_or_ge n 0x10000 with h3 | h3
      · refine ⟨0xE0 + n / 4096, [0x80 + n / 64 % 64, 0x80 + n % 64], ?_, ?_⟩
        · simp only [utf8EncodeChar]
          rw [if_neg (by omega), if_neg (by omega), if_pos h3]
        · have c1 : ¬ (0xE0 + n / 4096 < 0x80) := by omega
          have c2 : ¬ (0xE0 + n / 4096 < 0xC0) := by omega
          have c3 : ¬ (0xE0 + n / 4096 < 0xE0) := by omega
          have c4 : 0xE0 + n / 4096 < 0xF0 := by omega
          have c5 : isCont (0x80 + n / 64 % 64) = true := by
            simp [isCont]
            omega
          have c6 : isCont (0x80 + n % 64) = true := by
            simp [isCont]
            omega
          simp only [utf8DecodeTail, List.cons_append, List.nil_append]
          rw [if_neg c1, if_neg c2, if_neg c3, if_pos c4]
          simp only [c5, c6, Bool.and_self, if_true, ite_true]
          have harith : (0xE0 + n / 4096 - 0xE0) * 4096 + (0x80 + n / 64 % 64 - 0x80) * 64 +
              (0x80 + n % 64 - 0x80) = n := by omega
          rw [harith]
          have hval : 0x800 ≤ n ∧ (n < 0xD800 ∨ 0xE000 ≤ n) := by
            refine ⟨h2, ?_⟩
            rcases h with h | h
            · left; omega
            · right; omega
          rw [if_pos hval]
      · refine ⟨0xF0 + n / 262144, [0x80 + n / 4096 % 64, 0x80 + n / 64 % 64, 0x80 + n % 64],
          ?_, ?_⟩
        · simp only [utf8EncodeChar]
          rw [if_neg (by omega), if_neg (by omega), if_neg (by omega)]
        · have c1 : ¬ (0xF0 + n / 262144 < 0x80) := by omega
          have c2 : ¬ (0xF0 + n / 262144 < 0xC0) := by omega
          have c3 : ¬ (0xF0 + n / 262144 < 0xE0) := by omega
          have c4 : ¬ (0xF0 + n / 262144 < 0xF0) := by omega
          have c5 : isCont (0x80 + n / 4096 % 64) = true := by
            simp [isCont]
            omega
          have c6 : isCont (0x80 + n / 64 % 64) = true := by
            simp [isCont]
            omega
          have c7 : isCont (0x80 + n % 64) = true := by
            simp [isCont]
            omega
          simp only [utf8DecodeTail, List.cons_append, List.nil_append]
          rw [if_neg c1, if_neg c2, if_neg c3, if_neg c4]
          simp only [c5, c6, c7, Bool.and_self, if_true, ite_true]
          have harith : (0xF0 + n / 262144 - 0xF0) * 262144 +
              (0x80 + n / 4096 % 64 - 0x80) * 4096 +
              (0x80 + n / 64 % 64 - 0x80) * 64 + (0x80 + n % 64 - 0x80) = n := by omega
          rw [harith]
          have hval : 0x10000 ≤ n ∧ n < 0x110000 := ⟨h3, hlt⟩
          rw [if_pos hval]

theorem utf8DecodeLoop_encodeChar (n : Nat) (h : Nat.isValidChar n) (fuel : Nat)
    (rest : List Nat) :
    utf8DecodeLoop (fuel + 1) (utf8EncodeChar n ++ rest) =
      (utf8DecodeLoop fuel rest).map (fun cs => n :: cs) := by
  rcases utf8DecodeTail_encodeChar n h rest with ⟨b, bs, henc, hdec⟩
  rw [henc, List.cons_append, utf8DecodeLoop, hdec]

theorem utf8DecodeLoop_encodeCodes (l : List Nat) (fuel : Nat)
    (h : ∀ n ∈ l, Nat.isValidChar n) (hf : l.length ≤ fuel) :
    utf8DecodeLoop fuel (utf8EncodeCodes l) = some l := by
  induction l generalizing fuel with
  | nil =>
    rw [utf8EncodeCodes]
    rcases fuel with _ | f
    · rfl
    · rfl
  | cons c t ih =>
    rcases fuel with _ | f
    · simp at hf
    · rw [utf8EncodeCodes, utf8DecodeLoop_encodeChar c (h c (by simp)) f _]
      rw [ih f (fun n hn => h n (by simp [hn])) (by simpa using hf)]
      rfl

theorem utf8EncodeChar_length_pos (n : Nat) : 1 ≤ (utf8EncodeChar n).length := by
  simp only [utf8EncodeChar]
  split
  · simp
  · split
    · simp
    · split
      · simp
      · simp

theorem utf8EncodeCodes_length (l : List Nat) : l.length ≤ (utf8EncodeCodes l).length := by
  induction l with
  | nil => simp [utf8EncodeCodes]
  | cons c t ih =>
    rw [utf8EncodeCodes]
    have := utf8EncodeChar_length_pos c
    simp only [List.length_append, List.length_cons]
    omega

theorem utf8DecodeCodes_encodeCodes (l : List Nat) (h : ∀ n ∈ l, Nat.isValidChar n) :
    utf8DecodeCodes (utf8EncodeCodes l) = some l :=
  utf8DecodeLoop_encodeCodes l (utf8EncodeCodes l).length h (utf8EncodeCodes_length l)

/-- UTF-8 byte encoding of a Lean string (model of Node `Buffer.from(s)`). -/
def utf8Encode (s : String) : List Nat :=
  utf8EncodeCodes (s.data.map Char.toNat)

/-- UTF-8 decoding of a byte list back to a string; `none` on invalid UTF-8
(where Node would substitute replacement characters, a case none of the
verified properties depends on). -/
def utf8Decode (bs : List Nat) : Option String :=
  (utf8DecodeCodes bs).map (fun cs => String.mk (cs.map Char.ofNat))

/-- Model of `Buffer.from(content).toString("base64")` as used at
src/github/index.ts:226. -/
def bufferUtf8ToB64 (s : String) : String :=
  String.mk (b64EncodeBytes (utf8Encode s))

/-- Model of `Buffer.from(data.content, "base64").toString("utf8")` as used at
src/github/index.ts:211; on byte lists that are not valid UTF-8 the model
returns the empty string where Node would emit replacement characters. -/
def bufferB64ToUtf8 (s : String) : String :=
  (utf8Decode (b64DecodeChars s.data)).getD ""

theorem utf8EncodeCodes_bytes_lt (l : List Nat) (hv : ∀ n ∈ l, n < 0x110000) :
    ∀ x ∈ utf8EncodeCodes l, x < 256 := by
  induction l with
  | nil => simp [utf8EncodeCodes]
  | cons c t ih =>
    intro x hx
    have hc : c < 0x110000 := hv c (by simp)
    rw [utf8EncodeCodes] at hx
    rcases List.mem_append.mp hx with hx | hx
    · rw [utf8EncodeChar] at hx
      split at hx
      · simp at hx
        omega
      · split at hx
        · simp at hx
          rcases hx with hx | hx
          · omega
          · omega
        · split at hx
          · simp at hx
            rcases hx with hx | hx | hx
            · omega
            · omega
            · omega
          · simp at hx
            rcases hx with hx | hx | hx | hx
            · omega
            · omega
            · omega
            · omega
    · exact ih (fun n hn => hv n (by simp [hn])) x hx

theorem utf8Encode_bytes_lt (s : String) : ∀ x ∈ utf8Encode s, x < 256 := by
  unfold utf8Encode
  apply utf8EncodeCodes_bytes_lt
  intro n hn
  rcases List.mem_map.mp hn with ⟨c, hc, rfl⟩
  have hvalid := c.valid
  rcases hvalid with hvalid | hvalid
  · have : c.toNat < 0xD800 := hvalid
    omega
  · exact hvalid.2

theorem buffer_b64_utf8_roundtrip (s : String) :
    bufferB64ToUtf8 (bufferUtf8ToB64 s) = s := by
  unfold bufferB64ToUtf8 bufferUtf8ToB64
  have hdata : (String.mk (b64EncodeBytes (utf8Encode s))).data = b64EncodeBytes (utf8Encode s) :=
    rfl
  rw [hdata, b64_roundtrip _ (utf8Encode_bytes_lt s)]
  unfold utf8Encode utf8Decode
  rw [utf8DecodeCodes_encodeCodes]
  · have hmap : ∀ l : List Char, List.map (Char.ofNat ∘ Char.toNat) l = l := by
      intro l
      induction l with
      | nil => rfl
      | cons a t ih => simp [ih, Char.ofNat_toNat, Function.comp]
    simp only [Option.map_some', Option.getD_some, List.map_map, hmap]
  · intro n hn
    rcases List.mem_map.mp hn with ⟨c, hc, rfl⟩
    exact c.valid

/-! ## Data model

The record types mirror the fields of the zod response schemas that the
embedded functions actually read (the schema module itself is imported by
src/github/index.ts from ./schemas.js); fields the code never touches are
omitted. -/

/-- One entry of the `files` array of push_files
(`FileOperation = {path, content}`). -/
structure FileOperation where
  path : String
  content : String
deriving DecidableEq

/-- One entry of the `tree` array sent to the create-tree endpoint. -/
structure TreeEntry where
  path : String
  mode : String
  type : String
  content : String
deriving DecidableEq

/-- The `object` field of a GitHub reference response. -/
structure RefObject where
  sha : String
deriving DecidableEq

/-- A GitHub reference response (`GitHubReferenceSchema`): the embedded code
reads `data.object.sha`. -/
structure RefData where
  object : RefObject
deriving DecidableEq

/-- A create-tree response (`GitHubTreeSchema`): the embedded code reads
`tree.sha`. -/
structure TreeData where
  sha : String
deriving DecidableEq

/-- A create-commit response (`GitHubCommitSchema`): the embedded code reads
`commit.sha`. -/
structure CommitData where
  sha : String
deriving DecidableEq

/-- A single content item of a contents response (`GitHubContentSchema`):
the embedded code reads `sha` and `content`; `content` is optional in the
schema and absent for directory entries. -/
structure FileContent where
  sha : String
  content : Option String
deriving DecidableEq

/-- A contents response is either a single file object or a directory
listing (an array), a discriminated union in `GitHubContentSchema`. -/
inductive GitHubContent where
  | file (f : FileContent)
  | dir (l : List FileContent)
deriving DecidableEq

/-- The body of the PUT /contents request built by createOrUpdateFile;
`sha = none` models the spread `...(currentSha ? \x7b sha \x7d : \x7b\x7d)`
omitting the field. -/
structure PutBody where
  message : String
  content : String
  branch : String
  sha : Option String
deriving DecidableEq

/-- A create-or-update-file response (`GitHubCreateUpdateFileResponseSchema`);
the embedded code only passes it through, so it is kept opaque as a single
commit sha. -/
structure PutResponse where
  commitSha : String
deriving DecidableEq

/-- One gist file as returned by the gists endpoint: the embedded search
reads `filename` and `language`. -/
structure GistFile where
  filename : String
  language : Option String
deriving DecidableEq

/-- One gist: the embedded search reads `description` (nullable), the file
record (modelled as a list in insertion order, matching `Object.values`) and
`updated_at` (modelled as the numeric timestamp that
`new Date(g.updated_at).getTime()` yields). -/
structure Gist where
  description : Option String
  files : List GistFile
  updated_at : Nat
deriving DecidableEq

/-- The response shape of listGists and searchGists
(`SearchGistsResponseSchema`). -/
structure GistSearchResponse where
  total_count : Nat
  incomplete_results : Bool
  items : List Gist
deriving DecidableEq

/-- The parameters of search_gists (`SearchGistsSchema`): a query plus
optional sort, order and pagination. -/
structure GistSearchParams where
  q : String
  sort : Option String
  order : Option String
  page : Option Nat
  per_page : Option Nat
deriving DecidableEq

/-- A non-2xx HTTP response as the embedded error paths see it: the status
code, its `statusText`, the optional `message` field of the JSON body, and
the two rate-limit headers read by listGists. -/
structure ErrResponse where
  status : Nat
  statusText : String
  message : Option String
  rateLimitRemaining : Nat
  rateLimitReset : Nat
deriving DecidableEq

/-- A remote request, one constructor per HTTP call the embedded functions
can issue, carrying the data that determines the request. -/
inductive Req where
  | getRef (owner repo ref : String)
  | createTree (owner repo : String) (entries : List TreeEntry) (baseTree : Option String)
  | createCommit (owner repo message tree : String) (parents : List String)
  | updateRef (owner repo ref sha : String) (force : Bool)
  | getContents (owner repo path : String) (ref : Option String)
  | putContents (owner repo path : String) (body : PutBody)
  | listGists (since : Option String) (perPage page : Option Nat)
  | searchGistsApi (q : String)
deriving DecidableEq

/-- The remote oracle: for each possible request, the response the GitHub API
returns during the run under consideration.  A successful response carries
the already-schema-parsed data; an error is the raw response.  Each embedded
function issues every request at most once, so a function of the request
arguments is an adequate model of the remote state for a single run. -/
structure GitHubEnv where
  getRef : String → String → String → Except ErrResponse RefData
  createTree : String → String → List TreeEntry → Option String → Except ErrResponse TreeData
  createCommit : String → String → String → String → List String → Except ErrResponse CommitData
  updateRef : String → String → String → String → Bool → Except ErrResponse RefData
  getContents : String → String → String → Option String → Except ErrResponse GitHubContent
  putContents : String → String → String → PutBody → Except ErrResponse PutResponse
  listGists : Option String → Option Nat → Option Nat → Except ErrResponse (List Gist)

/-- The message of the error thrown on a non-ok response by every core
function: backtick-template `GitHub API error: $\x7bresponse.statusText\x7d`. -/
def apiErrorMsg (e : ErrResponse) : String :=
  "GitHub API error: " ++ e.statusText

/-! ## Embedded functions

Each definition below is translated line by line from src/github/index.ts.
The result pairs the returned/thrown value with the ordered request trace. -/

/-- A single-quote character (code 39), written via its code point. -/
def squote : String :=
  String.mk [Char.ofNat 39]

/-- The exact message thrown by getDefaultBranchSHA when both lookups fail:
Could not find default branch (tried quoted main and quoted master). -/
def defaultBranchErrMsg : String :=
  "Could not find default branch (tried " ++ squote ++ "main" ++ squote ++ " and " ++
    squote ++ "master" ++ squote ++ ")"

/-- Embedding of getDefaultBranchSHA (src/github/index.ts:143-182): fetch the
`main` ref; only on a non-ok response fetch the `master` ref; throw a
dedicated error when both fail. -/
def getDefaultBranchSHA (env : GitHubEnv) (owner repo : String) :
    Except String String × List Req :=
  match env.getRef owner repo "heads/main" with
  | .ok data => (.ok data.object.sha, [Req.getRef owner repo "heads/main"])
  | .error _ =>
    match env.getRef owner repo "heads/master" with
    | .ok data =>
      (.ok data.object.sha,
        [Req.getRef owner repo "heads/main", Req.getRef owner repo "heads/master"])
    | .error _ =>
      (.error defaultBranchErrMsg,
        [Req.getRef owner repo "heads/main", Req.getRef owner repo "heads/master"])

/-- Embedding of the base64 decoding step applied to the `content` field in
getFileContents: `data.content` is decoded only when it is truthy
(present and non-empty). -/
def jsDecodeContentField : Option String → Option String
  | none => none
  | some c => if c = "" then some c else some (bufferB64ToUtf8 c)

/-- Embedding of getFileContents (src/github/index.ts:184-215): fetch the
contents at (path, ref); throw on non-ok; if the parsed data is a single
file with truthy content, decode that content from base64 to utf8; a
directory listing is returned unchanged. -/
def getFileContents (env : GitHubEnv) (owner repo path : String) (branch : Option String) :
    Except String GitHubContent × List Req :=
  let req := Req.getContents owner repo path branch
  match env.getContents owner repo path branch with
  | .error e => (.error (apiErrorMsg e), [req])
  | .ok (GitHubContent.dir l) => (.ok (GitHubContent.dir l), [req])
  | .ok (GitHubContent.file f) =>
    (.ok (GitHubContent.file { f with content := jsDecodeContentField f.content }), [req])

/-- Embedding of createOrUpdateFile (src/github/index.ts:217-267).  The
`sha` parameter is `string | undefined`; `let currentSha = sha` followed by
`if (!currentSha)` treats both `undefined` and the empty string as absent.
The probe failure is caught and swallowed (only a console note is printed),
and the PUT body carries a `sha` field exactly when `currentSha` is truthy. -/
def createOrUpdateFile (env : GitHubEnv)
    (owner repo path content message branch : String) (sha : Option String) :
    Except String PutResponse × List Req :=
  let encodedContent := bufferUtf8ToB64 content
  let probe : Option String × List Req :=
    if strTruthy sha then (sha, [])
    else
      match getFileContents env owner repo path (some branch) with
      | (.ok (GitHubContent.file f), tr) => (some f.sha, tr)
      | (.ok (GitHubContent.dir _), tr) => (sha, tr)
      | (.error _, tr) => (sha, tr)
  let currentSha := probe.1
  let body : PutBody :=
    { message := message, content := encodedContent, branch := branch,
      sha := if strTruthy currentSha then currentSha else none }
  let req := Req.putContents owner repo path body
  match env.putContents owner repo path body with
  | .ok r => (.ok r, probe.2 ++ [req])
  | .error e => (.error (apiErrorMsg e), probe.2 ++ [req])

/-- The entry built from one FileOperation inside createTree: fixed mode
100644 and type blob, same path and content. -/
def fileToTreeEntry (f : FileOperation) : TreeEntry :=
  { path := f.path, mode := "100644", type := "blob", content := f.content }

/-- Embedding of createTree (src/github/index.ts:269-304): map every file to
a tree entry and send all of them in one create-tree request on `baseTree`. -/
def createTree (env : GitHubEnv) (owner repo : String)
    (files : List FileOperation) (baseTree : Option String) :
    Except String TreeData × List Req :=
  let entries := files.map fileToTreeEntry
  let req := Req.createTree owner repo entries baseTree
  match env.createTree owner repo entries baseTree with
  | .ok t => (.ok t, [req])
  | .error e => (.error (apiErrorMsg e), [req])

/-- Embedding of createCommit (src/github/index.ts:306-336). -/
def createCommit (env : GitHubEnv) (owner repo message tree : String)
    (parents : List String) : Except String CommitData × List Req :=
  let req := Req.createCommit owner repo message tree parents
  match env.createCommit owner repo message tree parents with
  | .ok c => (.ok c, [req])
  | .error e => (.error (apiErrorMsg e), [req])

/-- Embedding of updateReference (src/github/index.ts:338-367); `force`
defaults to false at the TypeScript call sites that omit it. -/
def updateReference (env : GitHubEnv) (owner repo ref sha : String) (force : Bool) :
    Except String RefData × List Req :=
  let req := Req.updateRef owner repo ref sha force
  match env.updateRef owner repo ref sha force with
  | .ok r => (.ok r, [req])
  | .error e => (.error (apiErrorMsg e), [req])

/-- Embedding of pushFiles (src/github/index.ts:369-403): resolve the branch
tip, create a tree on it, create a commit with that tree and the tip as only
parent, then move `heads/branch` to the new commit (force omitted, hence
false).  Each step starts only after the previous one succeeded, and the
first failure is thrown at once. -/
def pushFiles (env : GitHubEnv) (owner repo branch : String)
    (files : List FileOperation) (message : String) :
    Except String Unit × List Req :=
  let refName := "heads/" ++ branch
  let req1 := Req.getRef owner repo refName
  match env.getRef owner repo refName with
  | .error e => (.error (apiErrorMsg e), [req1])
  | .ok branchData =>
    let latestCommitSha := branchData.object.sha
    match createTree env owner repo files (some latestCommitSha) with
    | (.error msg, tr) => (.error msg, req1 :: tr)
    | (.ok tree, tr) =>
      match createCommit env owner repo message tree.sha [latestCommitSha] with
      | (.error msg, tr2) => (.error msg, req1 :: tr ++ tr2)
      | (.ok commit, tr2) =>
        match updateReference env owner repo refName commit.sha false with
        | (.error msg, tr3) => (.error msg, req1 :: tr ++ tr2 ++ tr3)
        | (.ok _, tr3) => (.ok (), req1 :: tr ++ tr2 ++ tr3)

/-! ## Gist functions -/

/-- The rate-limit error message of listGists, with the reset time kept
abstract (the model does not reconstruct the ISO date string). -/
def rateLimitErrMsg (reset : Nat) : String :=
  "GitHub API rate limit exceeded. Rate limit will reset at " ++ toString reset

/-- The error message listGists builds from a non-ok response:
template `GitHub API error ($\x7bstatus\x7d): $\x7bmessage or statusText\x7d`. -/
def gistApiErrMsg (e : ErrResponse) : String :=
  "GitHub API error (" ++ toString e.status ++ "): " ++
    (match e.message with
     | some m => m
     | none => e.statusText)

/-- Embedding of listGists (src/github/index.ts:944-1002): one GET /gists
request; a 403 with the remaining-rate header at zero raises the rate-limit
error, any other non-ok response raises the status/message error; a 2xx
response is wrapped as a search-response shape with
`total_count = data.length` and `incomplete_results = false`. -/
def listGists (env : GitHubEnv) (since : Option String) (perPage page : Option Nat) :
    Except String GistSearchResponse × List Req :=
  let req := Req.listGists since perPage page
  match env.listGists since perPage page with
  | .ok data =>
    (.ok { total_count := data.length, incomplete_results := false, items := data }, [req])
  | .error e =>
    if e.status = 403 ∧ e.rateLimitRemaining = 0 then
      (.error (rateLimitErrMsg e.rateLimitReset), [req])
    else
      (.error (gistApiErrMsg e), [req])

/-- Embedding of the exported searchGists declared at
src/github/index.ts:405-428.  In JavaScript the later function declaration
of the same name (line 1005) shadows this one, so no call site ever reaches
it; it is embedded for completeness as the only producer of a /search/gists
request.  The oracle is extended by the response of that endpoint. -/
def searchGistsRemote (searchEndpoint : String → Except ErrResponse GistSearchResponse)
    (params : GistSearchParams) : Except String GistSearchResponse × List Req :=
  let req := Req.searchGistsApi params.q
  match searchEndpoint params.q with
  | .ok r => (.ok r, [req])
  | .error e => (.error (apiErrorMsg e), [req])

/-- The language filter extracted from the query terms:
`searchTerms.find(t => t.startsWith("language:"))?.split(":")[1]`. -/
def languageFilterOf (terms : List String) : Option String :=
  (terms.find? (fun t => jsStartsWith t "language:")).map
    (fun t => ((jsSplitChar ':' t).getD 1 ""))

/-- The searchable text of a gist:
`[description, ...filenames].filter(Boolean).join(" ").toLowerCase()`. -/
def joinSpace : List String → String
  | [] => ""
  | [x] => x
  | x :: y :: t => x ++ " " ++ joinSpace (y :: t)

/-- The components of the searchable text before joining: the description
when non-null, then the filenames, all with empty strings removed by
`filter(Boolean)`. -/
def searchComponents (g : Gist) : List String :=
  ((match g.description with
    | some d => [d]
    | none => []) ++ g.files.map (fun f => f.filename)).filter (fun s => s ≠ "")

/-- The searchable text of a gist as built at src/github/index.ts:1031-1034. -/
def searchableTextOf (g : Gist) : String :=
  jsToLower (joinSpace (searchComponents g))

/-- The keyword check of the gist filter: when there is at least one keyword,
every keyword must occur in the searchable text. -/
def gistKeywordsOk (keywords : List String) (g : Gist) : Bool :=
  if keywords.length > 0 then
    keywords.all (fun k => jsIncludes (searchableTextOf g) k)
  else true

/-- The per-gist predicate of the searchGists filter
(src/github/index.ts:1020-1040): a truthy language filter requires some file
whose lowercased language equals it; then the keyword check applies. -/
def gistFilter (lf : Option String) (keywords : List String) (g : Gist) : Bool :=
  match lf with
  | some l =>
    if l ≠ "" then
      if g.files.any (fun f => f.language.map jsToLower = some l) then
        gistKeywordsOk keywords g
      else false
    else gistKeywordsOk keywords g
  | none => gistKeywordsOk keywords g

/-- Stable insertion into a list sorted by descending `updated_at`; models
the effect of the comparator `(a, b) => dateB - dateA` under Array.sort. -/
def insertByUpdatedDesc (g : Gist) : List Gist → List Gist
  | [] => [g]
  | h :: t =>
    if g.updated_at > h.updated_at then g :: h :: t
    else h :: insertByUpdatedDesc g t

/-- Sort by descending `updated_at` (stable insertion sort). -/
def sortByUpdatedDesc (l : List Gist) : List Gist :=
  l.foldr insertByUpdatedDesc []

/-- The sort step at the end of searchGists (src/github/index.ts:1042-1056):
inside the truthy-sort branch, the `updated` comparator orders by descending
timestamp (any other value compares everything equal, leaving the list as
is), then an `asc` order reverses in place. -/
def applySort (params : GistSearchParams) (l : List Gist) : List Gist :=
  if strTruthy params.sort then
    let s1 := if params.sort = some "updated" then sortByUpdatedDesc l else l
    if params.order = some "asc" then s1.reverse else s1
  else l

/-- The keyword list of a query: the lowercased space-split terms that do not
start with the language prefix marker. -/
def keywordsOf (q : String) : List String :=
  (jsSplitSpace (jsToLower q)).filter (fun t => ¬ jsStartsWith t "language:")

/-- Embedding of the effective searchGists (src/github/index.ts:1005-1063),
the later declaration that wins under JavaScript function hoisting: list one
page of the gists of the caller, parse the query into a language filter and
keywords, filter locally, optionally sort, and wrap with
`total_count = filteredItems.length` and `incomplete_results = false`. -/
def searchGists (env : GitHubEnv) (params : GistSearchParams) :
    Except String GistSearchResponse × List Req :=
  match listGists env none params.per_page params.page with
  | (.error msg, tr) => (.error msg, tr)
  | (.ok gists, tr) =>
    let searchTerms := jsSplitSpace (jsToLower params.q)
    let lf := languageFilterOf searchTerms
    let keywords := searchTerms.filter (fun t => ¬ jsStartsWith t "language:")
    let filteredItems := gists.items.filter (gistFilter lf keywords)
    let final := applySort params filteredItems
    (.ok { total_count := final.length, incomplete_results := false, items := final }, tr)

/-! ## Concrete environments for witnesses -/

/-- A canonical 404 response. -/
def errNotFound : ErrResponse :=
  { status := 404, statusText := "Not Found", message := none,
    rateLimitRemaining := 1, rateLimitReset := 0 }

/-- A canonical 422 response whose body carries a message. -/
def errUnprocessable : ErrResponse :=
  { status := 422, statusText := "Unprocessable Entity", message := some "Validation Failed",
    rateLimitRemaining := 1, rateLimitReset := 0 }

/-- An environment where every request succeeds with fixed data. -/
def envOk : GitHubEnv :=
  { getRef := fun _ _ _ => .ok ⟨⟨"tip0"⟩⟩
    createTree := fun _ _ _ _ => .ok ⟨"tree0"⟩
    createCommit := fun _ _ _ _ _ => .ok ⟨"commit0"⟩
    updateRef := fun _ _ _ _ _ => .ok ⟨⟨"commit0"⟩⟩
    getContents := fun _ _ _ _ => .ok (GitHubContent.file ⟨"blob0", some "aGk="⟩)
    putContents := fun _ _ _ _ => .ok ⟨"commit1"⟩
    listGists := fun _ _ _ => .ok [] }

/-! ## C1 -/

/-- C1: for every successful pushFiles run the four steps happen strictly in
order — fetch `heads/branch` for the tip, create a tree from the files with
the tip as base, create exactly one commit with the new tree and the single
parent equal to the tip, update `heads/branch` to the new commit sha with
force false — each input coming from the prior output. -/
theorem pushFiles_success_sequence (env : GitHubEnv) (owner repo branch message : String)
    (files : List FileOperation)
    (h : (pushFiles env owner repo branch files message).1 = .ok ()) :
    ∃ refData treeData commitData refUpd,
      env.getRef owner repo ("heads/" ++ branch) = .ok refData ∧
      env.createTree owner repo (files.map fileToTreeEntry)
        (some refData.object.sha) = .ok treeData ∧
      env.createCommit owner repo message treeData.sha [refData.object.sha] = .ok commitData ∧
      env.updateRef owner repo ("heads/" ++ branch) commitData.sha false = .ok refUpd ∧
      (pushFiles env owner repo branch files message).2 =
        [Req.getRef owner repo ("heads/" ++ branch),
         Req.createTree owner repo (files.map fileToTreeEntry) (some refData.object.sha),
         Req.createCommit owner repo message treeData.sha [refData.object.sha],
         Req.updateRef owner repo ("heads/" ++ branch) commitData.sha false] := by
  cases hre : env.getRef owner repo ("heads/" ++ branch) with
  | error e => simp [pushFiles, hre] at h
  | ok refData =>
    cases hct : env.createTree owner repo (files.map fileToTreeEntry)
        (some refData.object.sha) with
    | error e => simp [pushFiles, createTree, fileToTreeEntry, hre, hct] at h
    | ok treeData =>
      cases hcc : env.createCommit owner repo message treeData.sha [refData.object.sha] with
      | error e =>
        simp [pushFiles, createTree, createCommit, fileToTreeEntry, hre, hct, hcc] at h
      | ok commitData =>
        cases hur : env.updateRef owner repo ("heads/" ++ branch) commitData.sha false with
        | error e =>
          simp [pushFiles, createTree, createCommit, updateReference, fileToTreeEntry,
            hre, hct, hcc, hur] at h
        | ok refUpd =>
          refine ⟨refData, treeData, commitData, refUpd, ?_, ?_, ?_, ?_, ?_⟩ <;>
            simp [pushFiles, createTree, createCommit, updateReference, fileToTreeEntry,
              hre, hct, hcc, hur]

/-- Witness for C1 at a concrete environment and input. -/
theorem pushFiles_success_sequence_witness :
    (pushFiles envOk "o" "r" "b" [⟨"f.txt", "hi"⟩] "m").1 = .ok () ∧
    (∃ refData treeData commitData refUpd,
      envOk.getRef "o" "r" ("heads/" ++ "b") = .ok refData ∧
      envOk.createTree "o" "r" ([⟨"f.txt", "hi"⟩].map fileToTreeEntry)
        (some refData.object.sha) = .ok treeData ∧
      envOk.createCommit "o" "r" "m" treeData.sha [refData.object.sha] = .ok commitData ∧
      envOk.updateRef "o" "r" ("heads/" ++ "b") commitData.sha false = .ok refUpd ∧
      (pushFiles envOk "o" "r" "b" [⟨"f.txt", "hi"⟩] "m").2 =
        [Req.getRef "o" "r" ("heads/" ++ "b"),
         Req.createTree "o" "r" ([⟨"f.txt", "hi"⟩].map fileToTreeEntry)
           (some refData.object.sha),
         Req.createCommit "o" "r" "m" treeData.sha [refData.object.sha],
         Req.updateRef "o" "r" ("heads/" ++ "b") commitData.sha false]) :=
  ⟨rfl, pushFiles_success_sequence envOk "o" "r" "b" "m" [⟨"f.txt", "hi"⟩] rfl⟩

/-! ## C2 -/

/-- C2: whenever pushFiles fails, it fails at the first failing step with
that step's error, no step is retried (the trace lists each issued request
exactly once, in order, and stops at the failing step), and every
reference-update request present in the trace was answered with an error, so
the branch ref is never moved by a failing run. -/
theorem pushFiles_failure_atomic (env : GitHubEnv) (owner repo branch message msg : String)
    (files : List FileOperation)
    (h : (pushFiles env owner repo branch files message).1 = .error msg) :
    (∀ o2 r2 ref sha fo, Req.updateRef o2 r2 ref sha fo ∈
        (pushFiles env owner repo branch files message).2 →
      ∃ e, env.updateRef o2 r2 ref sha fo = .error e) ∧
    ((∃ e, env.getRef owner repo ("heads/" ++ branch) = .error e ∧ msg = apiErrorMsg e ∧
        (pushFiles env owner repo branch files message).2 =
          [Req.getRef owner repo ("heads/" ++ branch)]) ∨
     (∃ d e, env.getRef owner repo ("heads/" ++ branch) = .ok d ∧
        env.createTree owner repo (files.map fileToTreeEntry) (some d.object.sha) = .error e ∧
        msg = apiErrorMsg e ∧
        (pushFiles env owner repo branch files message).2 =
          [Req.getRef owner repo ("heads/" ++ branch),
           Req.createTree owner repo (files.map fileToTreeEntry) (some d.object.sha)]) ∨
     (∃ d t e, env.getRef owner repo ("heads/" ++ branch) = .ok d ∧
        env.createTree owner repo (files.map fileToTreeEntry) (some d.object.sha) = .ok t ∧
        env.createCommit owner repo message t.sha [d.object.sha] = .error e ∧
        msg = apiErrorMsg e ∧
        (pushFiles env owner repo branch files message).2 =
          [Req.getRef owner repo ("heads/" ++ branch),
           Req.createTree owner repo (files.map fileToTreeEntry) (some d.object.sha),
           Req.createCommit owner repo message t.sha [d.object.sha]]) ∨
     (∃ d t c e, env.getRef owner repo ("heads/" ++ branch) = .ok d ∧
        env.createTree owner repo (files.map fileToTreeEntry) (some d.object.sha) = .ok t ∧
        env.createCommit owner repo message t.sha [d.object.sha] = .ok c ∧
        env.updateRef owner repo ("heads/" ++ branch) c.sha false = .error e ∧
        msg = apiErrorMsg e ∧
        (pushFiles env owner repo branch files message).2 =
          [Req.getRef owner repo ("heads/" ++ branch),
           Req.createTree owner repo (files.map fileToTreeEntry) (some d.object.sha),
           Req.createCommit owner repo message t.sha [d.object.sha],
           Req.updateRef owner repo ("heads/" ++ branch) c.sha false])) := by
  cases hre : env.getRef owner repo ("heads/" ++ branch) with
  | error e =>
    constructor
    · intro o2 r2 ref sha fo hmem
      simp [pushFiles, hre] at hmem
    · left
      refine ⟨e, rfl, ?_, ?_⟩ <;> simp [pushFiles, hre] at h ⊢
      exact h.symm
  | ok refData =>
    cases hct : env.createTree owner repo (files.map fileToTreeEntry)
        (some refData.object.sha) with
    | error e =>
      constructor
      · intro o2 r2 ref sha fo hmem
        simp [pushFiles, createTree, fileToTreeEntry, hre, hct] at hmem
      · right; left
        refine ⟨refData, e, rfl, ?_, ?_, ?_⟩ <;>
          simp [pushFiles, createTree, fileToTreeEntry, hre, hct] at h ⊢
        exact h.symm
    | ok treeData =>
      cases hcc : env.createCommit owner repo message treeData.sha [refData.object.sha] with
      | error e =>
        constructor
        · intro o2 r2 ref sha fo hmem
          simp [pushFiles, createTree, createCommit, fileToTreeEntry, hre, hct, hcc] at hmem
        · right; right; left
          refine ⟨refData, treeData, e, rfl, ?_, ?_, ?_, ?_⟩ <;>
            simp [pushFiles, createTree, createCommit, fileToTreeEntry, hre, hct, hcc] at h ⊢
          exact h.symm
      | ok commitData =>
        cases hur : env.updateRef owner repo ("heads/" ++ branch) commitData.sha false with
        | error e =>
          constructor
          · intro o2 r2 ref sha fo hmem
            simp [pushFiles, createTree, createCommit, updateReference, fileToTreeEntry,
              hre, hct, hcc, hur] at hmem
            rcases hmem with ⟨h1, h2, h3, h4, h5⟩
            subst h1; subst h2; subst h3; subst h4; subst h5
            exact ⟨e, hur⟩
          · right; right; right
            refine ⟨refData, treeData, commitData, e, rfl, ?_, ?_, ?_, ?_, ?_⟩ <;>
              simp [pushFiles, createTree, createCommit, updateReference, fileToTreeEntry,
                hre, hct, hcc, hur] at h ⊢
            exact h.symm
        | ok refUpd =>
          simp [pushFiles, createTree, createCommit, updateReference, fileToTreeEntry,
            hre, hct, hcc, hur] at h

/-- An environment whose create-commit endpoint fails with a 422. -/
def envCommitFails : GitHubEnv :=
  { envOk with createCommit := fun _ _ _ _ _ => .error errUnprocessable }

/-- Witness for C2 at a concrete environment failing at the commit step. -/
theorem pushFiles_failure_atomic_witness :
    (pushFiles envCommitFails "o" "r" "b" [⟨"f.txt", "hi"⟩] "m").1 =
      .error (apiErrorMsg errUnprocessable) ∧
    ((∀ o2 r2 ref sha fo, Req.updateRef o2 r2 ref sha fo ∈
        (pushFiles envCommitFails "o" "r" "b" [⟨"f.txt", "hi"⟩] "m").2 →
      ∃ e, envCommitFails.updateRef o2 r2 ref sha fo = .error e) ∧
     ((∃ e, envCommitFails.getRef "o" "r" ("heads/" ++ "b") = .error e ∧
        apiErrorMsg errUnprocessable = apiErrorMsg e ∧
        (pushFiles envCommitFails "o" "r" "b" [⟨"f.txt", "hi"⟩] "m").2 =
          [Req.getRef "o" "r" ("heads/" ++ "b")]) ∨
      (∃ d e, envCommitFails.getRef "o" "r" ("heads/" ++ "b") = .ok d ∧
        envCommitFails.createTree "o" "r" ([⟨"f.txt", "hi"⟩].map fileToTreeEntry)
          (some d.object.sha) = .error e ∧
        apiErrorMsg errUnprocessable = apiErrorMsg e ∧
        (pushFiles envCommitFails "o" "r" "b" [⟨"f.txt", "hi"⟩] "m").2 =
          [Req.getRef "o" "r" ("heads/" ++ "b"),
           Req.createTree "o" "r" ([⟨"f.txt", "hi"⟩].map fileToTreeEntry)
             (some d.object.sha)]) ∨
      (∃ d t e, envCommitFails.getRef "o" "r" ("heads/" ++ "b") = .ok d ∧
        envCommitFails.createTree "o" "r" ([⟨"f.txt", "hi"⟩].map fileToTreeEntry)
          (some d.object.sha) = .ok t ∧
        envCommitFails.createCommit "o" "r" "m" t.sha [d.object.sha] = .error e ∧
        apiErrorMsg errUnprocessable = apiErrorMsg e ∧
        (pushFiles envCommitFails "o" "r" "b" [⟨"f.txt", "hi"⟩] "m").2 =
          [Req.getRef "o" "r" ("heads/" ++ "b"),
           Req.createTree "o" "r" ([⟨"f.txt", "hi"⟩].map fileToTreeEntry)
             (some d.object.sha),
           Req.createCommit "o" "r" "m" t.sha [d.object.sha]]) ∨
      (∃ d t c e, envCommitFails.getRef "o" "r" ("heads/" ++ "b") = .ok d ∧
        envCommitFails.createTree "o" "r" ([⟨"f.txt", "hi"⟩].map fileToTreeEntry)
          (some d.object.sha) = .ok t ∧
        envCommitFails.createCommit "o" "r" "m" t.sha [d.object.sha] = .ok c ∧
        envCommitFails.updateRef "o" "r" ("heads/" ++ "b") c.sha false = .error e ∧
        apiErrorMsg errUnprocessable = apiErrorMsg e ∧
        (pushFiles envCommitFails "o" "r" "b" [⟨"f.txt", "hi"⟩] "m").2 =
          [Req.getRef "o" "r" ("heads/" ++ "b"),
           Req.createTree "o" "r" ([⟨"f.txt", "hi"⟩].map fileToTreeEntry)
             (some d.object.sha),
           Req.createCommit "o" "r" "m" t.sha [d.object.sha],
           Req.updateRef "o" "r" ("heads/" ++ "b") c.sha false]))) :=
  ⟨rfl, pushFiles_failure_atomic envCommitFails "o" "r" "b" "m"
    (apiErrorMsg errUnprocessable) [⟨"f.txt", "hi"⟩] rfl⟩

/-! ## C3 -/

/-- C3: getDefaultBranchSHA first requests the main ref; only on failure does
it request the master ref; it returns the sha of the first success, and the
not-found error is raised exactly when both requests fail, and is the only
possible error. -/
theorem getDefaultBranchSHA_fallback (env : GitHubEnv) (owner repo : String) :
    (∀ d, env.getRef owner repo "heads/main" = .ok d →
      getDefaultBranchSHA env owner repo =
        (.ok d.object.sha, [Req.getRef owner repo "heads/main"])) ∧
    (∀ e d, env.getRef owner repo "heads/main" = .error e →
      env.getRef owner repo "heads/master" = .ok d →
      getDefaultBranchSHA env owner repo =
        (.ok d.object.sha,
         [Req.getRef owner repo "heads/main", Req.getRef owner repo "heads/master"])) ∧
    (∀ e e2, env.getRef owner repo "heads/main" = .error e →
      env.getRef owner repo "heads/master" = .error e2 →
      getDefaultBranchSHA env owner repo =
        (.error defaultBranchErrMsg,
         [Req.getRef owner repo "heads/main", Req.getRef owner repo "heads/master"])) ∧
    ((∃ m, (getDefaultBranchSHA env owner repo).1 = .error m) ↔
      ((∃ e, env.getRef owner repo "heads/main" = .error e) ∧
       (∃ e2, env.getRef owner repo "heads/master" = .error e2))) ∧
    (∀ m, (getDefaultBranchSHA env owner repo).1 = .error m → m = defaultBranchErrMsg) := by
  cases hmain : env.getRef owner repo "heads/main" with
  | ok d =>
    refine ⟨?_, ?_, ?_, ?_, ?_⟩
    · intro d2 hd2
      cases hd2
      simp [getDefaultBranchSHA, hmain]
    · intro e d2 he _
      simp at he
    · intro e e2 he _
      simp at he
    · simp [getDefaultBranchSHA, hmain]
    · intro m hm
      simp [getDefaultBranchSHA, hmain] at hm
  | error e =>
    cases hmaster : env.getRef owner repo "heads/master" with
    | ok d =>
      refine ⟨?_, ?_, ?_, ?_, ?_⟩
      · intro d2 hd2
        simp at hd2
      · intro e2 d2 _ hd2
        cases hd2
        simp [getDefaultBranchSHA, hmain, hmaster]
      · intro e2 e3 _ he3
        simp at he3
      · simp [getDefaultBranchSHA, hmain, hmaster]
      · intro m hm
        simp [getDefaultBranchSHA, hmain, hmaster] at hm
    | error e2 =>
      refine ⟨?_, ?_, ?_, ?_, ?_⟩
      · intro d2 hd2
        simp at hd2
      · intro e3 d2 _ hd2
        simp at hd2
      · intro e3 e4 _ _
        simp [getDefaultBranchSHA, hmain, hmaster]
      · simp [getDefaultBranchSHA, hmain, hmaster]
      · intro m hm
        simp [getDefaultBranchSHA, hmain, hmaster] at hm
        exact hm.symm

/-- An environment that lacks a main ref but has a master ref. -/
def envMasterOnly : GitHubEnv :=
  { envOk with getRef := fun _ _ ref =>
      if ref = "heads/master" then .ok ⟨⟨"mastertip"⟩⟩ else .error errNotFound }

/-- Witness for C3: on the master-only environment the fallback branch of the
theorem produces the master tip after both requests. -/
theorem getDefaultBranchSHA_fallback_witness :
    envMasterOnly.getRef "o" "r" "heads/main" = .error errNotFound ∧
    envMasterOnly.getRef "o" "r" "heads/master" = .ok ⟨⟨"mastertip"⟩⟩ ∧
    getDefaultBranchSHA envMasterOnly "o" "r" =
      (.ok "mastertip",
       [Req.getRef "o" "r" "heads/main", Req.getRef "o" "r" "heads/master"]) :=
  ⟨rfl, rfl,
    (getDefaultBranchSHA_fallback envMasterOnly "o" "r").2.1 errNotFound ⟨⟨"mastertip"⟩⟩ rfl rfl⟩

/-! ## C7 -/

/-- C7: createTree maps each file change 1:1 to a tree entry with the same
path and content and fixed mode 100644 and type blob, and submits all
entries together in a single create-tree request layered on the given base
tree. -/
theorem createTree_single_request (env : GitHubEnv) (owner repo : String)
    (files : List FileOperation) (baseTree : Option String) :
    (createTree env owner repo files baseTree).2 =
      [Req.createTree owner repo (files.map fileToTreeEntry) baseTree] ∧
    ∀ f : FileOperation,
      (fileToTreeEntry f).path = f.path ∧ (fileToTreeEntry f).mode = "100644" ∧
      (fileToTreeEntry f).type = "blob" ∧ (fileToTreeEntry f).content = f.content := by
  constructor
  · cases h : env.createTree owner repo (files.map fileToTreeEntry) baseTree <;>
      simp [createTree, h]
  · intro f
    exact ⟨rfl, rfl, rfl, rfl⟩

/-! ## C6 -/

/-- C6: getFileContents returns the parsed directory listing unchanged when
the path is a directory (no decoding is applied to listings) and a single
object with the content field base64-decoded when the path is a file; both
through the same single contents request. -/
theorem getFileContents_discriminates (env : GitHubEnv) (owner repo path : String)
    (branch : Option String) :
    (getFileContents env owner repo path branch).2 =
      [Req.getContents owner repo path branch] ∧
    (∀ l, env.getContents owner repo path branch = .ok (GitHubContent.dir l) →
      (getFileContents env owner repo path branch).1 = .ok (GitHubContent.dir l)) ∧
    (∀ f, env.getContents owner repo path branch = .ok (GitHubContent.file f) →
      (getFileContents env owner repo path branch).1 =
        .ok (GitHubContent.file ⟨f.sha, jsDecodeContentField f.content⟩)) := by
  refine ⟨?_, ?_, ?_⟩
  · cases h : env.getContents owner repo path branch with
    | error e => simp [getFileContents, h]
    | ok c => cases c <;> simp [getFileContents, h]
  · intro l hl
    simp [getFileContents, hl]
  · intro f hf
    simp [getFileContents, hf]

/-- An environment whose contents endpoint returns a directory listing. -/
def envDir : GitHubEnv :=
  { envOk with getContents := fun _ _ _ _ =>
      Except.ok (GitHubContent.dir [⟨"s1", none⟩, ⟨"s2", none⟩]) }

/-- Witness for C6: a directory listing passes through unchanged, a file has
its content decoded (aGk= is the base64 of hi). -/
theorem getFileContents_discriminates_witness :
    (getFileContents envDir "o" "r" "p" none).1 =
      .ok (GitHubContent.dir [⟨"s1", none⟩, ⟨"s2", none⟩]) ∧
    (getFileContents envOk "o" "r" "p" none).1 =
      .ok (GitHubContent.file ⟨"blob0", jsDecodeContentField (some "aGk=")⟩) ∧
    jsDecodeContentField (some "aGk=") = some "hi" :=
  ⟨(getFileContents_discriminates envDir "o" "r" "p" none).2.1 _ rfl,
   (getFileContents_discriminates envOk "o" "r" "p" none).2.2 _ rfl,
   by decide⟩

/-! ## C5 -/

/-- Predicate singling out create-commit requests. -/
def isCreateCommitReq : Req → Bool
  | Req.createCommit _ _ _ _ _ => true
  | _ => false

/-- Predicate singling out reference-update requests. -/
def isUpdateRefReq : Req → Bool
  | Req.updateRef _ _ _ _ _ => true
  | _ => false

/-- C5: pushFiles performs no local path validation; an entry with an empty
or otherwise invalid path is rejected by the remote create-tree call (the
collaborator behaviour the spec records), and under that rejection the whole
batch fails — pushFiles raises the tree-step error (or the earlier ref-step
error) and no create-commit and no reference-update request is ever issued,
so no entry is applied partially. -/
theorem pushFiles_invalid_path_rejected (env : GitHubEnv)
    (owner repo branch message : String) (files : List FileOperation) (er : ErrResponse)
    (_hbad : ∃ f ∈ files, f.path = "")
    (hrej : ∀ base, env.createTree owner repo (files.map fileToTreeEntry) base = .error er) :
    ((pushFiles env owner repo branch files message).1 = .error (apiErrorMsg er) ∨
     (∃ e, env.getRef owner repo ("heads/" ++ branch) = .error e ∧
       (pushFiles env owner repo branch files message).1 = .error (apiErrorMsg e))) ∧
    (∀ q ∈ (pushFiles env owner repo branch files message).2,
      isCreateCommitReq q = false ∧ isUpdateRefReq q = false) := by
  cases hre : env.getRef owner repo ("heads/" ++ branch) with
  | error e =>
    constructor
    · right
      exact ⟨e, rfl, by simp [pushFiles, hre]⟩
    · intro q hq
      simp [pushFiles, hre] at hq
      simp [hq, isCreateCommitReq, isUpdateRefReq]
  | ok d =>
    constructor
    · left
      simp [pushFiles, createTree, fileToTreeEntry, hre, hrej d.object.sha]
    · intro q hq
      simp [pushFiles, createTree, fileToTreeEntry, hre, hrej d.object.sha] at hq
      rcases hq with hq | hq <;> simp [hq, isCreateCommitReq, isUpdateRefReq]

/-- An environment whose create-tree endpoint rejects trees containing an
entry with an empty path, as the real remote does. -/
def envTreeRejects : GitHubEnv :=
  { envOk with createTree := fun _ _ entries _ =>
      if entries.any (fun e => e.path = "") then .error errUnprocessable
      else Except.ok ⟨"tree0"⟩ }

/-- Witness for C5 at a batch containing an empty path. -/
theorem pushFiles_invalid_path_rejected_witness :
    (∃ f ∈ [(⟨"", "x"⟩ : FileOperation)], f.path = "") ∧
    (((pushFiles envTreeRejects "o" "r" "b" [⟨"", "x"⟩] "m").1 =
        .error (apiErrorMsg errUnprocessable) ∨
      (∃ e, envTreeRejects.getRef "o" "r" ("heads/" ++ "b") = .error e ∧
        (pushFiles envTreeRejects "o" "r" "b" [⟨"", "x"⟩] "m").1 = .error (apiErrorMsg e))) ∧
     (∀ q ∈ (pushFiles envTreeRejects "o" "r" "b" [⟨"", "x"⟩] "m").2,
       isCreateCommitReq q = false ∧ isUpdateRefReq q = false)) :=
  ⟨⟨⟨"", "x"⟩, by simp⟩,
   pushFiles_invalid_path_rejected envTreeRejects "o" "r" "b" "m" [⟨"", "x"⟩]
     errUnprocessable ⟨⟨"", "x"⟩, by simp⟩ (fun _ => rfl)⟩

/-! ## C8 -/

/-- An environment whose contents endpoint answers 422 with a body message. -/
def envContents422 : GitHubEnv :=
  { envOk with getContents := fun _ _ _ _ => .error errUnprocessable }

/-- Counterexample to C8 as stated: a 422 response with statusText
Unprocessable Entity and body message Validation Failed makes getFileContents
throw an error that contains neither the numeric status nor the body
message — it carries only the statusText. -/
theorem coreError_counterexample :
    errUnprocessable.status = 422 ∧
    errUnprocessable.message = some "Validation Failed" ∧
    (getFileContents envContents422 "o" "r" "p" none).1 =
      .error "GitHub API error: Unprocessable Entity" ∧
    ¬ ("422".data <:+: "GitHub API error: Unprocessable Entity".data) ∧
    ¬ ("Validation Failed".data <:+: "GitHub API error: Unprocessable Entity".data) :=
  ⟨rfl, rfl, rfl, by decide, by decide⟩

/-- C8 amended: on any non-success response (not-found included — the code
does not distinguish it), each core function throws a generic error whose
message is exactly the concatenation of GitHub API error and the response
statusText; the numeric status and the body message are not included. -/
theorem coreErrors_carry_statusText (env : GitHubEnv)
    (owner repo path message tree ref sha : String) (branch : Option String)
    (files : List FileOperation) (baseTree : Option String)
    (parents : List String) (force : Bool) :
    (∀ e, env.getContents owner repo path branch = .error e →
      (getFileContents env owner repo path branch).1 =
        .error ("GitHub API error: " ++ e.statusText)) ∧
    (∀ e, env.createTree owner repo (files.map fileToTreeEntry) baseTree = .error e →
      (createTree env owner repo files baseTree).1 =
        .error ("GitHub API error: " ++ e.statusText)) ∧
    (∀ e, env.createCommit owner repo message tree parents = .error e →
      (createCommit env owner repo message tree parents).1 =
        .error ("GitHub API error: " ++ e.statusText)) ∧
    (∀ e, env.updateRef owner repo ref sha force = .error e →
      (updateReference env owner repo ref sha force).1 =
        .error ("GitHub API error: " ++ e.statusText)) := by
  refine ⟨?_, ?_, ?_, ?_⟩
  · intro e he
    simp [getFileContents, apiErrorMsg, he]
  · intro e he
    simp [createTree, apiErrorMsg, he]
  · intro e he
    simp [createCommit, apiErrorMsg, he]
  · intro e he
    simp [updateReference, apiErrorMsg, he]

/-- Witness for the amended C8 at the concrete 422 environment. -/
theorem coreErrors_carry_statusText_witness :
    envContents422.getContents "o" "r" "p" none = .error errUnprocessable ∧
    (getFileContents envContents422 "o" "r" "p" none).1 =
      .error ("GitHub API error: " ++ errUnprocessable.statusText) :=
  ⟨rfl,
   (coreErrors_carry_statusText envContents422 "o" "r" "p" "m" "t" "ref" "sha" none [] none []
     false).1 errUnprocessable rfl⟩

/-! ## C4 -/

/-- Counterexample to C4 as stated: with the sha argument supplied as the
empty string, the write still performs the existing-file lookup, because the
TypeScript truthiness test `if (!currentSha)` treats the empty string like
undefined. -/
theorem createOrUpdateFile_empty_sha_counterexample :
    (some "" : Option String) ≠ none ∧
    Req.getContents "o" "r" "p" (some "b") ∈
      (createOrUpdateFile envOk "o" "r" "p" "c" "m" "b" (some "")).2 := by
  constructor
  · simp
  · decide

/-- The conditional-write token computed by the falsy-sha probe of
createOrUpdateFile from the parsed lookup answer: the sha of a single file
(when itself non-empty), nothing for a directory or a failed lookup. -/
def probeToken : Except String GitHubContent → Option String
  | .ok (GitHubContent.file f) => if f.sha = "" then none else some f.sha
  | .ok (GitHubContent.dir _) => none
  | .error _ => none

/-- C4 amended: the probe is keyed on truthiness, not suppliedness.  When a
non-empty sha is supplied no lookup happens and the PUT carries that sha;
when sha is absent or empty, exactly one lookup at (path, branch) precedes
the PUT: a single-file answer contributes its sha (when non-empty) as the
conditional-write token, a directory answer or any lookup failure is
swallowed and the PUT proceeds with no sha token; in every case the PUT is
issued and its outcome alone decides the result. -/
theorem createOrUpdateFile_sha_probe (env : GitHubEnv)
    (owner repo path content message branch : String) (sha : Option String) :
    (strTruthy sha = true →
      (createOrUpdateFile env owner repo path content message branch sha).2 =
        [Req.putContents owner repo path
          (PutBody.mk message (bufferUtf8ToB64 content) branch sha)]) ∧
    (strTruthy sha = false →
      (createOrUpdateFile env owner repo path content message branch sha).2 =
        [Req.getContents owner repo path (some branch),
         Req.putContents owner repo path
           (PutBody.mk message (bufferUtf8ToB64 content) branch
             (probeToken (getFileContents env owner repo path (some branch)).1))] ∧
      (∀ r, (createOrUpdateFile env owner repo path content message branch sha).1 = .ok r ↔
        env.putContents owner repo path
          (PutBody.mk message (bufferUtf8ToB64 content) branch
            (probeToken (getFileContents env owner repo path (some branch)).1)) = .ok r)) := by
  constructor
  · intro ht
    rcases sha with _ | s
    · simp [strTruthy] at ht
    · have hs : s ≠ "" := by
        by_contra hc
        simp [strTruthy, hc] at ht
      cases hp : env.putContents owner repo path
          (PutBody.mk message (bufferUtf8ToB64 content) branch (some s)) with
      | ok r => simp [createOrUpdateFile, strTruthy, hs, hp]
      | error e => simp [createOrUpdateFile, strTruthy, hs, hp]
  · intro hfalse
    have hsha : (if strTruthy sha = true then sha else none) = none := by
      simp [hfalse]
    cases hgc : env.getContents owner repo path (some branch) with
    | error e =>
      have htok : probeToken (getFileContents env owner repo path (some branch)).1 = none := by
        simp [getFileContents, probeToken, hgc]
      rw [htok]
      cases hp : env.putContents owner repo path
          (PutBody.mk message (bufferUtf8ToB64 content) branch none) with
      | ok r =>
        exact ⟨by simp [createOrUpdateFile, getFileContents, hfalse, hgc, hp, hsha],
          by simp [createOrUpdateFile, getFileContents, hfalse, hgc, hp, hsha]⟩
      | error e2 =>
        exact ⟨by simp [createOrUpdateFile, getFileContents, hfalse, hgc, hp, hsha],
          by simp [createOrUpdateFile, getFileContents, hfalse, hgc, hp, hsha]⟩
    | ok c =>
      cases c with
      | dir l =>
        have htok : probeToken (getFileContents env owner repo path (some branch)).1 = none := by
          simp [getFileContents, probeToken, hgc]
        rw [htok]
        cases hp : env.putContents owner repo path
            (PutBody.mk message (bufferUtf8ToB64 content) branch none) with
        | ok r =>
          exact ⟨by simp [createOrUpdateFile, getFileContents, hfalse, hgc, hp, hsha],
            by simp [createOrUpdateFile, getFileContents, hfalse, hgc, hp, hsha]⟩
        | error e2 =>
          exact ⟨by simp [createOrUpdateFile, getFileContents, hfalse, hgc, hp, hsha],
            by simp [createOrUpdateFile, getFileContents, hfalse, hgc, hp, hsha]⟩
      | file f =>
        have htok : probeToken (getFileContents env owner repo path (some branch)).1 =
            (if f.sha = "" then none else some f.sha) := by
          simp [getFileContents, probeToken, hgc]
        rw [htok]
        have hcur : (if strTruthy (some f.sha) = true then some f.sha else none) =
            (if f.sha = "" then none else some f.sha) := by
          by_cases hfs : f.sha = ""
          · simp [strTruthy, hfs]
          · simp [strTruthy, hfs]
        cases hp : env.putContents owner repo path
            (PutBody.mk message (bufferUtf8ToB64 content) branch
              (if f.sha = "" then none else some f.sha)) with
        | ok r =>
          exact ⟨by simp [createOrUpdateFile, getFileContents, hfalse, hgc, hcur, hp, hsha],
            by simp [createOrUpdateFile, getFileContents, hfalse, hgc, hcur, hp, hsha]⟩
        | error e2 =>
          exact ⟨by simp [createOrUpdateFile, getFileContents, hfalse, hgc, hcur, hp, hsha],
            by simp [createOrUpdateFile, getFileContents, hfalse, hgc, hcur, hp, hsha]⟩

/-- Witness for the amended C4: a non-empty supplied sha skips the lookup
(single PUT request carrying it), while an absent sha probes first and picks
up the sha of the existing file. -/
theorem createOrUpdateFile_sha_probe_witness :
    ((createOrUpdateFile envOk "o" "r" "p" "c" "m" "b" (some "abc")).2 =
      [Req.putContents "o" "r" "p"
        (PutBody.mk "m" (bufferUtf8ToB64 "c") "b" (some "abc"))]) ∧
    ((createOrUpdateFile envOk "o" "r" "p" "c" "m" "b" none).2 =
      [Req.getContents "o" "r" "p" (some "b"),
       Req.putContents "o" "r" "p"
         (PutBody.mk "m" (bufferUtf8ToB64 "c") "b"
           (probeToken (getFileContents envOk "o" "r" "p" (some "b")).1))]) :=
  ⟨(createOrUpdateFile_sha_probe envOk "o" "r" "p" "c" "m" "b" (some "abc")).1 rfl,
   ((createOrUpdateFile_sha_probe envOk "o" "r" "p" "c" "m" "b" none).2 rfl).1⟩

/-! ## C9 -/

/-- C9: createOrUpdateFile base64-encodes the content as UTF-8 before
sending (the PUT body carries exactly bufferUtf8ToB64 content), getFileContents
decodes a stored single-file content from base64 back to UTF-8 text, and the
two compose to the identity: reading back what was written yields the
original string. -/
theorem content_write_read_roundtrip (env : GitHubEnv)
    (owner repo path message branch content fsha : String) (sha : Option String)
    (hstore : env.getContents owner repo path (some branch) =
      .ok (GitHubContent.file ⟨fsha, some (bufferUtf8ToB64 content)⟩)) :
    bufferB64ToUtf8 (bufferUtf8ToB64 content) = content ∧
    (∃ body : PutBody,
      (createOrUpdateFile env owner repo path content message branch sha).2.getLast? =
        some (Req.putContents owner repo path body) ∧
      body.content = bufferUtf8ToB64 content) ∧
    (getFileContents env owner repo path (some branch)).1 =
      .ok (GitHubContent.file ⟨fsha, some content⟩) := by
  have hrt : bufferB64ToUtf8 (bufferUtf8ToB64 content) = content :=
    buffer_b64_utf8_roundtrip content
  refine ⟨hrt, ?_, ?_⟩
  · rcases createOrUpdateFile_sha_probe env owner repo path content message branch sha
      with ⟨htrue, hfalse⟩
    cases ht : strTruthy sha with
    | true =>
      rw [htrue ht]
      exact ⟨PutBody.mk message (bufferUtf8ToB64 content) branch sha, rfl, rfl⟩
    | false =>
      rw [(hfalse ht).1]
      exact ⟨PutBody.mk message (bufferUtf8ToB64 content) branch
        (probeToken (getFileContents env owner repo path (some branch)).1), rfl, rfl⟩
  · by_cases hempty : bufferUtf8ToB64 content = ""
    · have hc : content = "" := by
        rw [← hrt, hempty]
        rfl
      have h0 : bufferUtf8ToB64 "" = "" := rfl
      simp [getFileContents, hstore, jsDecodeContentField, hempty, hc, h0]
    · simp [getFileContents, hstore, jsDecodeContentField, hempty, hrt]

/-- An environment storing at every path the base64 of the UTF-8 bytes of a
fixed two-character string. -/
def envStoresHi : GitHubEnv :=
  { envOk with getContents := fun _ _ _ _ =>
      Except.ok (GitHubContent.file ⟨"s", some (bufferUtf8ToB64 "hi")⟩) }

/-- Witness for C9 at the concrete stored string. -/
theorem content_write_read_roundtrip_witness :
    bufferB64ToUtf8 (bufferUtf8ToB64 "hi") = "hi" ∧
    (∃ body : PutBody,
      (createOrUpdateFile envStoresHi "o" "r" "p" "hi" "m" "b" none).2.getLast? =
        some (Req.putContents "o" "r" "p" body) ∧
      body.content = bufferUtf8ToB64 "hi") ∧
    (getFileContents envStoresHi "o" "r" "p" (some "b")).1 =
      .ok (GitHubContent.file ⟨"s", some "hi"⟩) :=
  content_write_read_roundtrip envStoresHi "o" "r" "p" "m" "b" "hi" "s" none rfl

/-! ## C10 support lemmas -/

theorem prefix_no_space (k : List Char) (hk : ' ' ∉ k) :
    ∀ a b : List Char, k <+: a ++ ' ' :: b → k <+: a := by
  induction k with
  | nil => intro a b _; exact List.nil_prefix
  | cons d k2 ih =>
    intro a b h
    have hd : d ≠ ' ' := by
      intro hd
      exact hk (by simp [hd])
    have hk2 : ' ' ∉ k2 := by
      intro hm
      exact hk (by simp [hm])
    cases a with
    | nil =>
      simp only [List.nil_append, List.cons_prefix_cons] at h
      exact absurd h.1 hd
    | cons c a2 =>
      simp only [List.cons_append, List.cons_prefix_cons] at h
      rcases h with ⟨hdc, h2⟩
      rw [List.cons_prefix_cons]
      exact ⟨hdc, ih hk2 a2 b h2⟩

theorem infix_split_space (k : List Char) (hk : ' ' ∉ k) (hne : k ≠ []) :
    ∀ a b : List Char, k <:+: a ++ ' ' :: b → k <:+: a ∨ k <:+: b := by
  intro a
  induction a with
  | nil =>
    intro b h
    simp only [List.nil_append] at h
    rcases List.infix_cons_iff.mp h with h | h
    · have := prefix_no_space k hk [] b (by simpa using h)
      rw [List.prefix_nil] at this
      exact absurd this hne
    · exact Or.inr h
  | cons c a2 ih =>
    intro b h
    simp only [List.cons_append] at h
    rcases List.infix_cons_iff.mp h with h | h
    · have hpre : k <+: (c :: a2) ++ ' ' :: b := by simpa using h
      exact Or.inl (prefix_no_space k hk (c :: a2) b hpre).isInfix
    · rcases ih b h with h2 | h2
      · exact Or.inl (List.infix_cons h2)
      · exact Or.inr h2

theorem infix_joinSpace (k : List Char) (hk : ' ' ∉ k) (hne : k ≠ []) :
    ∀ comps : List String, k <:+: (joinSpace comps).data → ∃ c ∈ comps, k <:+: c.data := by
  intro comps
  induction comps with
  | nil =>
    intro h
    simp only [joinSpace] at h
    rw [List.infix_nil] at h
    exact absurd h hne
  | cons x t ih =>
    intro h
    cases t with
    | nil =>
      simp only [joinSpace] at h
      exact ⟨x, by simp, h⟩
    | cons y t2 =>
      have hdata : (joinSpace (x :: y :: t2)).data =
          x.data ++ ' ' :: (joinSpace (y :: t2)).data := by
        show (x ++ " " ++ joinSpace (y :: t2)).data = _
        rw [String.data_append, String.data_append, List.append_assoc]
        rfl
      rw [hdata] at h
      rcases infix_split_space k hk hne x.data (joinSpace (y :: t2)).data h with h2 | h2
      · exact ⟨x, by simp, h2⟩
      · rcases ih h2 with ⟨c, hc, hinf⟩
        exact ⟨c, by simp [hc], hinf⟩

theorem jsToLower_append (a b : String) :
    jsToLower (a ++ b) = jsToLower a ++ jsToLower b := by
  unfold jsToLower
  rw [String.data_append, List.map_append]
  rfl

theorem jsToLower_space : jsToLower " " = " " := by
  decide

theorem joinSpace_map_toLower (l : List String) :
    jsToLower (joinSpace l) = joinSpace (l.map jsToLower) := by
  induction l with
  | nil => rfl
  | cons x t ih =>
    cases t with
    | nil => rfl
    | cons y t2 =>
      show jsToLower (x ++ " " ++ joinSpace (y :: t2)) = _
      rw [jsToLower_append, jsToLower_append, jsToLower_space, ih]
      rfl

theorem insertByUpdatedDesc_perm (g : Gist) (l : List Gist) :
    List.Perm (insertByUpdatedDesc g l) (g :: l) := by
  induction l with
  | nil => simp [insertByUpdatedDesc]
  | cons h t ih =>
    rw [insertByUpdatedDesc]
    by_cases hcmp : g.updated_at > h.updated_at
    · simp [hcmp]
    · simp only [hcmp, if_false]
      exact (List.Perm.cons h ih).trans (List.Perm.swap g h t)

theorem sortByUpdatedDesc_perm (l : List Gist) :
    List.Perm (sortByUpdatedDesc l) l := by
  induction l with
  | nil => simp [sortByUpdatedDesc]
  | cons h t ih =>
    show List.Perm (insertByUpdatedDesc h (sortByUpdatedDesc t)) (h :: t)
    exact (insertByUpdatedDesc_perm h (sortByUpdatedDesc t)).trans (List.Perm.cons h ih)

theorem applySort_mem (params : GistSearchParams) (l : List Gist) :
    ∀ g ∈ applySort params l, g ∈ l := by
  intro g hg
  unfold applySort at hg
  split at hg
  · dsimp only at hg
    split at hg
    · rw [List.mem_reverse] at hg
      split at hg
      · exact ((sortByUpdatedDesc_perm l).mem_iff).mp hg
      · exact hg
    · split at hg
      · exact ((sortByUpdatedDesc_perm l).mem_iff).mp hg
      · exact hg
  · exact hg

theorem applySort_length (params : GistSearchParams) (l : List Gist) :
    (applySort params l).length = l.length := by
  unfold applySort
  split
  · dsimp only
    split
    · rw [List.length_reverse]
      split
      · exact (sortByUpdatedDesc_perm l).length_eq
      · rfl
    · split
      · exact (sortByUpdatedDesc_perm l).length_eq
      · rfl
  · rfl

/-! ## C10 -/

/-- C10: searchGists performs no remote search call — its only request is a
single page of the gist listing — and always reports
incomplete_results false with total_count equal to the number of returned
items; every returned gist matches the language filter when one is present
(some file whose lowercased language equals it) and contains every non-empty
remaining lowercase keyword of the query in its description or in one of its
filenames (case-insensitively). -/
theorem searchGists_local_filter (env : GitHubEnv) (params : GistSearchParams)
    (res : GistSearchResponse)
    (h : (searchGists env params).1 = .ok res) :
    (searchGists env params).2 = [Req.listGists none params.per_page params.page] ∧
    (∀ q2, Req.searchGistsApi q2 ∉ (searchGists env params).2) ∧
    res.incomplete_results = false ∧
    res.total_count = res.items.length ∧
    (∀ g ∈ res.items,
      (∀ l, languageFilterOf (jsSplitSpace (jsToLower params.q)) = some l → l ≠ "" →
        ∃ f ∈ g.files, f.language.map jsToLower = some l) ∧
      (∀ k ∈ keywordsOf params.q, k ≠ "" →
        (∃ d, g.description = some d ∧ k.data <:+: (jsToLower d).data) ∨
        (∃ f ∈ g.files, k.data <:+: (jsToLower f.filename).data))) := by
  cases hlg : env.listGists none params.per_page params.page with
  | error e =>
    exfalso
    by_cases hrl : e.status = 403 ∧ e.rateLimitRemaining = 0
    · simp [searchGists, listGists, hlg, hrl] at h
    · simp [searchGists, listGists, hlg, hrl] at h
  | ok data =>
    have hcomp : searchGists env params =
        (.ok { total_count :=
                 (applySort params (data.filter (gistFilter
                   (languageFilterOf (jsSplitSpace (jsToLower params.q)))
                   ((jsSplitSpace (jsToLower params.q)).filter
                     (fun t => ¬ jsStartsWith t "language:"))))).length,
               incomplete_results := false,
               items := applySort params (data.filter (gistFilter
                 (languageFilterOf (jsSplitSpace (jsToLower params.q)))
                 ((jsSplitSpace (jsToLower params.q)).filter
                   (fun t => ¬ jsStartsWith t "language:")))) },
         [Req.listGists none params.per_page params.page]) := by
      simp only [searchGists, listGists, hlg]
    rw [hcomp] at h
    simp only [Except.ok.injEq] at h
    subst h
    rw [hcomp]
    refine ⟨rfl, by simp, rfl, rfl, ?_⟩
    intro g hg
    have hgf : g ∈ data.filter (gistFilter
        (languageFilterOf (jsSplitSpace (jsToLower params.q)))
        ((jsSplitSpace (jsToLower params.q)).filter
          (fun t => ¬ jsStartsWith t "language:"))) :=
      applySort_mem params _ g hg
    rw [List.mem_filter] at hgf
    have hfilt := hgf.2
    constructor
    · intro l hl hlne
      rw [hl] at hfilt
      simp only [gistFilter] at hfilt
      rw [if_pos hlne] at hfilt
      cases hany : g.files.any (fun f => f.language.map jsToLower = some l) with
      | false =>
        rw [hany] at hfilt
        simp at hfilt
      | true =>
        simp only [List.any_eq_true, decide_eq_true_eq] at hany
        rcases hany with ⟨f, hf, heq⟩
        exact ⟨f, hf, heq⟩
    · have hkw : gistKeywordsOk ((jsSplitSpace (jsToLower params.q)).filter
          (fun t => ¬ jsStartsWith t "language:")) g = true := by
        rcases hlfE : languageFilterOf (jsSplitSpace (jsToLower params.q)) with _ | l2
        · rw [hlfE] at hfilt
          simpa [gistFilter] using hfilt
        · rw [hlfE] at hfilt
          simp only [gistFilter] at hfilt
          by_cases hl2 : l2 ≠ ""
          · rw [if_pos hl2] at hfilt
            cases hany2 : g.files.any (fun f => f.language.map jsToLower = some l2) with
            | false =>
              rw [hany2] at hfilt
              simp at hfilt
            | true =>
              rw [hany2] at hfilt
              simpa using hfilt
          · rw [if_neg hl2] at hfilt
            exact hfilt
      intro k hk hkne
      simp only [keywordsOf] at hk
      have hlen : 0 < ((jsSplitSpace (jsToLower params.q)).filter
          (fun t => ¬ jsStartsWith t "language:")).length :=
        List.length_pos.mpr (List.ne_nil_of_mem hk)
      simp only [gistKeywordsOk, if_pos hlen] at hkw
      rw [List.all_eq_true] at hkw
      have hinc := hkw k hk
      simp only [jsIncludes, decide_eq_true_eq] at hinc
      have hst : searchableTextOf g = joinSpace ((searchComponents g).map jsToLower) := by
        rw [searchableTextOf, joinSpace_map_toLower]
      rw [hst] at hinc
      have hksp : ' ' ∉ k.data := by
        have hkmem : k ∈ jsSplitSpace (jsToLower params.q) := (List.mem_filter.mp hk).1
        exact jsSplitSpace_no_space (jsToLower params.q) k hkmem
      have hkd : k.data ≠ [] := by
        intro hd
        exact hkne (String.ext hd)
      rcases infix_joinSpace k.data hksp hkd ((searchComponents g).map jsToLower) hinc
        with ⟨c, hcmem, hcinf⟩
      rcases List.mem_map.mp hcmem with ⟨c0, hc0, rfl⟩
      rw [searchComponents, List.mem_filter] at hc0
      rcases List.mem_append.mp hc0.1 with hc0m | hc0m
      · left
        cases hdesc : g.description with
        | none =>
          rw [hdesc] at hc0m
          simp at hc0m
        | some d =>
          rw [hdesc] at hc0m
          simp at hc0m
          rw [hc0m] at hcinf
          exact ⟨d, rfl, hcinf⟩
      · right
        rcases List.mem_map.mp hc0m with ⟨f, hfmem, rfl⟩
        exact ⟨f, hfmem, hcinf⟩

/-- A gist matching the witness query: python file, description with foo. -/
def gistPy : Gist :=
  ⟨some "foo bar", [⟨"a.py", some "Python"⟩], 10⟩

/-- A gist not matching the witness query. -/
def gistJs : Gist :=
  ⟨some "baz", [⟨"b.js", some "JavaScript"⟩], 20⟩

/-- An environment whose gist listing returns the two sample gists. -/
def envGists : GitHubEnv :=
  { envOk with listGists := fun _ _ _ => .ok [gistPy, gistJs] }

/-- The witness query: one keyword and a language filter. -/
def gistParams : GistSearchParams :=
  ⟨"foo language:python", none, none, none, none⟩

/-- The expected witness response: just the matching gist. -/
def gistRes : GistSearchResponse :=
  ⟨1, false, [gistPy]⟩

/-- Witness for C10 at a concrete environment: the search keeps exactly the
matching gist, counts it, and issued only the one listing request. -/
theorem searchGists_local_filter_witness :
    (searchGists envGists gistParams).1 = .ok gistRes ∧
    ((searchGists envGists gistParams).2 =
      [Req.listGists none gistParams.per_page gistParams.page] ∧
     (∀ q2, Req.searchGistsApi q2 ∉ (searchGists envGists gistParams).2) ∧
     gistRes.incomplete_results = false ∧
     gistRes.total_count = gistRes.items.length ∧
     (∀ g ∈ gistRes.items,
       (∀ l, languageFilterOf (jsSplitSpace (jsToLower gistParams.q)) = some l → l ≠ "" →
         ∃ f ∈ g.files, f.language.map jsToLower = some l) ∧
       (∀ k ∈ keywordsOf gistParams.q, k ≠ "" →
         (∃ d, g.description = some d ∧ k.data <:+: (jsToLower d).data) ∨
         (∃ f ∈ g.files, k.data <:+: (jsToLower f.filename).data)))) :=
  ⟨rfl, searchGists_local_filter envGists gistParams gistRes rfl⟩
